import Mathlib

/-!
Verification development for the PIMA Hunter Pro alarm protocol adapter
(`src/api/pima.py`).  The byte-level protocol engine is embedded shallowly:
Python `bytes` values become `List Nat` (each element a byte value `< 256`),
fallible operations become `Option`/`Except`, and the `time.sleep` settle
delay is recorded as data in the send result.
-/

set_option maxRecDepth 100000

namespace Pima

/-- Message kinds of `Alarm._Message` (outbound op codes). -/
inductive Msg
  | WRITE
  | READ
  | OPEN
  | CLOSE
  | STATUS
deriving DecidableEq

/-- Byte value of each message kind (`_Message.<k>.value`). -/
def Msg.value : Msg → Nat
  | .WRITE => 0x0f
  | .READ => 0x0e
  | .OPEN => 0x01
  | .CLOSE => 0x19
  | .STATUS => 0x05

/-- Channel kinds of `Alarm._Channel` (subsystem selectors). -/
inductive Chan
  | IDLE
  | SYSTEM
  | ZONES
  | OUTPUTS
  | LOGIN
  | PARAMETER
deriving DecidableEq

/-- Byte value of each channel kind (`_Channel.<k>.value`). -/
def Chan.value : Chan → Nat
  | .IDLE => 0x00
  | .SYSTEM => 0x01
  | .ZONES => 0x02
  | .OUTPUTS => 0x03
  | .LOGIN => 0x04
  | .PARAMETER => 0x05

/-- Arming modes of the `Arm` enum. -/
inductive Arm
  | FULL_ARM
  | HOME1
  | HOME2
  | DISARM
deriving DecidableEq

/-- Byte value of each arming mode (`Arm.<k>.value`, a single byte). -/
def Arm.value : Arm → Nat
  | .FULL_ARM => 0x01
  | .HOME1 => 0x02
  | .HOME2 => 0x03
  | .DISARM => 0x00

/-- Lowercased enum member name, as produced by `Arm(b).name.lower()`. -/
def Arm.lowerName : Arm → String
  | .FULL_ARM => "full_arm"
  | .HOME1 => "home1"
  | .HOME2 => "home2"
  | .DISARM => "disarm"

/-- The `_ZONES_TO_MODULE_ID` dictionary (`None` models a `KeyError`). -/
def zonesToModuleId (zones : Nat) : Option Nat :=
  if zones = 32 then some 0x0d
  else if zones = 96 then some 0x0d
  else if zones = 144 then some 0x13
  else none

/-- The `_ZONES_TO_ZONE_BYTES` dictionary (`None` models a `KeyError`). -/
def zonesToZoneBytes (zones : Nat) : Option Nat :=
  if zones = 32 then some 12
  else if zones = 96 then some 12
  else if zones = 144 then some 18
  else none

/-- One shift-and-reduce round of the reflected CRC-16 with polynomial
0x18005 (reversed form 0xA001), as computed by
`crcmod.mkCrcFun(0x18005, rev=True, initCrc=0x0000, xorOut=0x0000)`. -/
def crcRound (c : Nat) : Nat :=
  if c &&& 1 = 1 then (c >>> 1) ^^^ 0xA001 else c >>> 1

/-- Absorb one input byte into the reflected CRC-16 state. -/
def crcByte (c b : Nat) : Nat :=
  crcRound^[8] (c ^^^ b)

/-- Model of `self._crc(data)`: reflected CRC-16/ARC over a byte string, init 0,
xor-out 0. -/
def crc16 (l : List Nat) : Nat :=
  l.foldl crcByte 0

/-- Python `int.from_bytes(data, byteorder="big")`. -/
def fromBytesBE (l : List Nat) : Nat :=
  l.foldl (fun acc b => acc * 256 + b) 0

/-- Python `int.from_bytes(data, byteorder="little")`. -/
def fromBytesLE (l : List Nat) : Nat :=
  l.foldr (fun b acc => b + 256 * acc) 0

/-- Python `v.to_bytes(2, byteorder="big")` for `v < 65536`. -/
def toBytesBE2 (v : Nat) : List Nat :=
  [v / 256, v % 256]

/-- Python `v.to_bytes(2, byteorder="little")` for `v < 65536`. -/
def toBytesLE2 (v : Nat) : List Nat :=
  [v % 256, v / 256]

/-- Model of `Alarm._parse_bytes`: read a byte string as a little-endian integer and
return the set of 1-based indices of its set bits.  The Python
comprehension ranges over `bits.bit_length()`; since `bits < 2^(8·len)`
every set bit lies below `8 * data.length`, so ranging over that bound
selects the same indices (`_parse_bytes_eq_bit_length_range` below proves
the two ranges agree); it is used here because `Nat.size` is not
kernel-computable. -/
def _parse_bytes (data : List Nat) : Finset Nat :=
  let bits := fromBytesLE data
  ((Finset.range (8 * data.length)).filter (fun i => bits &&& (1 <<< i) ≠ 0)).image
    (fun i => i + 1)

/-- The payload assembled by `_send_message` before framing:
`module_id || message || channel || u8(len(addr)) || addr || data`. -/
def mkOutput (moduleId : Nat) (message : Msg) (channel : Chan)
    (address dat : List Nat) : List Nat :=
  moduleId :: message.value :: channel.value :: address.length :: (address ++ dat)

/-- The complete wire frame `_send_message` writes: length byte, payload,
big-endian CRC-16. -/
def sendFrame (moduleId : Nat) (message : Msg) (channel : Chan)
    (address dat : List Nat) : List Nat :=
  let output := mkOutput moduleId message channel address dat
  (output.length :: output) ++ toBytesBE2 (crc16 (output.length :: output))

/-- Result of `_send_message`: the frame written to the channel and the
number of seconds slept afterwards (`time.sleep(1)` unless STATUS). -/
structure SendResult where
  frame : List Nat
  sleepSecs : Nat
deriving DecidableEq

/-- Model of `Alarm._send_message`.  Returns `none` where Python raises: when a
length does not fit the one-byte slots built with `bytes([...])`, or the
CRC does not fit `to_bytes(2, ...)` (never happens for byte input). -/
def _send_message (moduleId : Nat) (message : Msg) (channel : Chan)
    (address dat : List Nat) : Option SendResult :=
  if 256 ≤ address.length then none
  else
    let output := mkOutput moduleId message channel address dat
    if 256 ≤ output.length then none
    else if 65536 ≤ crc16 (output.length :: output) then none
    else some ⟨sendFrame moduleId message channel address dat,
               if message = Msg.STATUS then 0 else 1⟩

/-- Errors raised by `_read_message`: `GarbageInputError` and the three
`Error` cases (short data, CRC mismatch, module-id mismatch). -/
inductive ReadErr
  | garbage (length : Nat)
  | notEnoughData
  | invalidCrc
  | invalidModuleId
deriving DecidableEq

/-- Model of `Alarm._read_message`, applied to the first byte read (`length`) and
the up-to-`length+2` further bytes the channel yielded (`rest`). -/
def _read_message (moduleId length : Nat) (rest : List Nat) :
    Except ReadErr (List Nat) :=
  let data := length :: rest
  if data = List.replicate data.length length then .error (.garbage length)
  else if data.length ≠ length + 3 then .error .notEnoughData
  else
    let body := data.take (data.length - 2)
    let crcClaim := fromBytesBE (data.drop (data.length - 2))
    if crcClaim ≠ crc16 body then .error .invalidCrc
    else if [moduleId] ≠ (body.drop 1).take 1 then .error .invalidModuleId
    else .ok body

/-- Outcomes of `get_status` that are not a status record: the module's
`Error` cases (invalid message / status / address) and the Python built-in
exceptions that the body parser can raise (`IndexError` on out-of-range
indexing, `ValueError` from `Arm(...)`, `KeyError` from dict lookups). -/
inductive PErr
  | invalidMessage
  | invalidStatus
  | invalidAddress
  | indexError
  | valueError
  | keyError
deriving DecidableEq

/-- Whether an error is one of the protocol's `Error` kinds (as opposed to
a Python built-in exception escaping from the parser). -/
def PErr.isProtocol : PErr → Bool
  | .invalidMessage => true
  | .invalidStatus => true
  | .invalidAddress => true
  | _ => false

/-- The decoded status dictionary.  Keys that may be absent are `Option`s. -/
structure StatusRec where
  loggedIn : Bool
  commandAck : Option Bool := none
  openZones : Option (Finset Nat) := none
  alarmedZones : Option (Finset Nat) := none
  bypassedZones : Option (Finset Nat) := none
  failedZones : Option (Finset Nat) := none
  partitions : Option (List (Nat × String)) := none
  failures : Option (Finset String) := none
deriving DecidableEq

/-- Python slice `l[i : i+n]`. -/
def sliceL (l : List Nat) (i n : Nat) : List Nat :=
  (l.drop i).take n

/-- Python `range(start, stop, step)` for `step > 0`. -/
def pyRange (start stop step : Nat) : List Nat :=
  (List.range ((stop - start + step - 1) / step)).map (fun i => start + step * i)

/-- Python list indexing `l[i]` (raises `IndexError` out of range). -/
def listGet {α : Type} (l : List α) (i : Nat) : Except PErr α :=
  match l.get? i with
  | some a => .ok a
  | none => .error .indexError

/-- Python `l[-1]` (raises `IndexError` on an empty list). -/
def listLast {α : Type} : List α → Except PErr α
  | [] => .error .indexError
  | [a] => .ok a
  | _ :: b :: rest => listLast (b :: rest)

/-- Equality of `Except` values is decidable componentwise. -/
instance {ε α : Type} [DecidableEq ε] [DecidableEq α] : DecidableEq (Except ε α) := fun x y =>
  match x, y with
  | .error a, .error b =>
    if h : a = b then .isTrue (by rw [h]) else .isFalse (by simp [h])
  | .error _, .ok _ => .isFalse (by simp)
  | .ok _, .error _ => .isFalse (by simp)
  | .ok a, .ok b =>
    if h : a = b then .isTrue (by rw [h]) else .isFalse (by simp [h])

/-- Error-propagating map, as a Python loop that may raise on any item. -/
def mapE {α β : Type} (f : α → Except PErr β) : List α → Except PErr (List β)
  | [] => .ok []
  | a :: as =>
    match f a with
    | .error e => .error e
    | .ok b =>
      match mapE f as with
      | .error e => .error e
      | .ok bs => .ok (b :: bs)

/-- Python `Arm(bytes([b]))`: enum lookup by value, `ValueError` when absent. -/
def armOfByte (b : Nat) : Except PErr Arm :=
  if b = 1 then .ok .FULL_ARM
  else if b = 2 then .ok .HOME1
  else if b = 3 then .ok .HOME2
  else if b = 0 then .ok .DISARM
  else .error .valueError

/-- The `_DISCRETE_FAILURES` dictionary (keys 1..48). -/
def discreteFailures : Nat → Option String
  | 1 => some "System Low Power"
  | 2 => some "Unknown (2)"
  | 3 => some "System Error"
  | 4 => some "Zone Failure"
  | 5 => some "Unknown (5)"
  | 6 => some "Auxiliary Voltage Failure (Fuse short)"
  | 7 => some "W/L Zone Low Battery"
  | 8 => some "Wireless Receiver Failure"
  | 9 => some "Low Battery"
  | 10 => some "Telephone Line Failure"
  | 11 => some "MAINS Failure (220V)"
  | 12 => some "Tamper 1 Open"
  | 13 => some "Tamper 2 Open"
  | 14 => some "Clock Not Set"
  | 15 => some "RAM Error"
  | 16 => some "Station Commuincation Failure"
  | 17 => some "Siren 1 Failure"
  | 18 => some "Siren 2 Failure"
  | 19 => some "SMS Communication"
  | 20 => some "SMS Card"
  | 21 => some "GSM200 Error"
  | 22 => some "Network Comm. Fault"
  | 23 => some "Radio Fault"
  | 24 => some "Keyfob Rec. Fault"
  | 25 => some "Wireless Receiver Tamper Open"
  | 26 => some "Wireless Jamming"
  | 27 => some "GSM-200 Failure"
  | 28 => some "GSM Communication Failure"
  | 29 => some "GSM-SIM Failure"
  | 30 => some "GSM Link Failure"
  | 31 => some "GSM Comm. Fault 2nd station"
  | 32 => some "W/L Zone Supervision"
  | 33 => some "Unknown (33)"
  | 34 => some "Network fault Station 2"
  | 35 => some "Net4Pro Fault"
  | 36 => some "VVR 1 Fault"
  | 37 => some "VVR 2 Fault"
  | 38 => some "VVR 3 Fault"
  | 39 => some "VVR 4 Fault"
  | 40 => some "VVR 1 Power Fault"
  | 41 => some "VVR 2 Power Fault"
  | 42 => some "VVR 3 Power Fault"
  | 43 => some "VVR 4 Power Fault"
  | 44 => some "Unknown (44)"
  | 45 => some "Unknown (45)"
  | 46 => some "Unknown (46)"
  | 47 => some "Unknown (47)"
  | 48 => some "Unknown (48)"
  | _ => none

/-- The ordered `(fail_type, count)` pairs of the clustered-failures loop,
with `fail_type % n` rendered by string concatenation. -/
def clusteredSpec : List ((Nat → String) × Nat) :=
  [ (fun n => "Keypad " ++ toString n ++ " Failure", 1),
    (fun n => "Keypad " ++ toString n ++ " Tamper", 1),
    (fun n => "Zone Expander " ++ toString n ++ " Failure", 2),
    (fun n => "Zone Expander " ++ toString n ++ " Tamper", 2),
    (fun n => "Zone Expander " ++ toString n ++ " Low Voltage", 2),
    (fun n => "Zone Expander " ++ toString n ++ " AC Failure", 2),
    (fun n => "Zone Expander " ++ toString n ++ " Low Battery", 2),
    (fun n => "Out Expander " ++ toString n ++ " Failure", 1),
    (fun n => "Out Expander " ++ toString n ++ " Tamper", 1),
    (fun n => "Out Expander " ++ toString n ++ " Low Voltage", 1),
    (fun n => "Out Expander " ++ toString n ++ " AC Failure", 1),
    (fun n => "Out Expander " ++ toString n ++ " Low Battery", 1) ]

/-- The body of `get_status` after the dispatch checks (lines 201-243 of
`src/api/pima.py`): zone bitmaps, partitions, failures, flags. -/
def statusBody (zones zb : Nat) (response : List Nat) : Except PErr StatusRec :=
  let zone_bytes := (pyRange 7 response.length zb).take 5
  let zone_data := (zone_bytes.take (zone_bytes.length - 1)).map
    (fun i => sliceL response i (zones / 8))
  match listGet zone_data 0 with
  | .error e => .error e
  | .ok z0 =>
  match listGet zone_data 1 with
  | .error e => .error e
  | .ok z1 =>
  match listGet zone_data 2 with
  | .error e => .error e
  | .ok z2 =>
  match listGet zone_data 3 with
  | .error e => .error e
  | .ok z3 =>
  match listLast zone_bytes with
  | .error e => .error e
  | .ok index =>
  match mapE armOfByte (sliceL response index 16) with
  | .error e => .error e
  | .ok arms =>
  let partitions := arms.enum.map (fun p => (p.1 + 1, p.2.lowerName))
  let fs := _parse_bytes (sliceL response (index + 16) 6)
  if ¬ ∀ f ∈ fs, (discreteFailures f).isSome = true then .error .keyError
  else
  let st := clusteredSpec.foldl
    (fun st spec =>
      (st.1 ∪ (_parse_bytes (sliceL response st.2 spec.2)).image spec.1,
       st.2 + spec.2))
    (fs.image (fun f => (discreteFailures f).getD ""), index + 16 + 6)
  match listGet response (st.2 + 4) with
  | .error e => .error e
  | .ok flags =>
  .ok { loggedIn := flags &&& 1 != 0
      , commandAck := some (flags &&& 2 != 0)
      , openZones := some (_parse_bytes z0)
      , alarmedZones := some (_parse_bytes z1)
      , bypassedZones := some (_parse_bytes z2)
      , failedZones := some (_parse_bytes z3)
      , partitions := some partitions
      , failures := if st.1 = ∅ then none else some st.1 }

/-- Model of `Alarm.get_status`: interpretation of the frame returned by
`_read_message` (`src/api/pima.py` lines 177-243; the outbound
`STATUS on IDLE` poll it writes in between is modeled by `_send_message`). -/
def get_status (zones : Nat) (response : List Nat) : Except PErr StatusRec :=
  if response = [] then .ok { loggedIn := false }
  else if sliceL response 2 1 ≠ [5] then .error .invalidMessage
  else if sliceL response 3 1 = [0] then .ok { loggedIn := false }
  else if sliceL response 3 1 ≠ [1] then .error .invalidStatus
  else if sliceL response 4 3 ≠ [2, 0, 0] then .error .invalidAddress
  else
    match zonesToZoneBytes zones with
    | none => .error .keyError
    | some zb => statusBody zones zb response

/-- The login data bytes: `bytes([int(d) for d in code]).ljust(6, b"\xff")`. -/
def loginData (code : String) : List Nat :=
  let digits := code.data.map (fun c => c.toNat - 48)
  digits ++ List.replicate (6 - digits.length) 0xff

/-- The wire address built by `arm`:
`sum(1 << (p - 1) for p in partitions).to_bytes(2, byteorder="little")`.
`none` models the Python errors: a negative shift for `p = 0`, or an
`OverflowError` when the bitmask does not fit two bytes. -/
def armAddress (partitions : Finset Nat) : Option (List Nat) :=
  if 0 ∈ partitions then none
  else
    let v := ∑ p ∈ partitions, 2 ^ (p - 1)
    if v < 65536 then some (toBytesLE2 v) else none

/-- One run of `Alarm.arm`: the frame sent by `_send_message` and the value
of the trailing `get_status()` call on the panel's next response. -/
def armRun (zones moduleId : Nat) (mode : Arm) (partitions : Finset Nat)
    (nextResponse : List Nat) : Option (SendResult × Except PErr StatusRec) :=
  match armAddress partitions with
  | none => none
  | some address =>
    match _send_message moduleId
        (if mode = Arm.DISARM then Msg.OPEN else Msg.CLOSE)
        Chan.SYSTEM address [mode.value] with
    | none => none
    | some r => some (r, get_status zones nextResponse)

/-- A complete 99-byte STATUS/SYSTEM response for a 32-zone panel with an
all-zero body: no zones flagged, all 16 partitions disarmed, no failures,
flags byte 0. -/
def resp99 : List Nat := [98, 13, 5, 1, 2, 0, 0] ++ List.replicate 92 0

/-- The status record `get_status` decodes from `resp99`. -/
def rec99 : StatusRec :=
  { loggedIn := false
  , commandAck := some false
  , openZones := some ∅
  , alarmedZones := some ∅
  , bypassedZones := some ∅
  , failedZones := some ∅
  , partitions := some ((List.range 16).map (fun i => (i + 1, "disarm")))
  , failures := none }

/-- A 99-byte STATUS/SYSTEM response like `resp99` but with the first
zone-bitmap byte equal to 3, so zones 1 and 2 are open. -/
def respZ : List Nat := [98, 13, 5, 1, 2, 0, 0, 3] ++ List.replicate 91 0

/-- The status record `get_status` decodes from `respZ`. -/
def recZ : StatusRec :=
  { loggedIn := false
  , commandAck := some false
  , openZones := some {1, 2}
  , alarmedZones := some ∅
  , bypassedZones := some ∅
  , failedZones := some ∅
  , partitions := some ((List.range 16).map (fun i => (i + 1, "disarm")))
  , failures := none }

/-! Helper lemmas. -/

/-- Check vector from the spec: `crc("123456789") == 0xBB3D`. -/
theorem crc16_check_vector :
    crc16 [49, 50, 51, 52, 53, 54, 55, 56, 57] = 0xBB3D := by decide

theorem crcRound_lt {c : Nat} (h : c < 2 ^ 16) : crcRound c < 2 ^ 16 := by
  have hs : c >>> 1 < 2 ^ 16 := by
    rw [Nat.shiftRight_eq_div_pow]
    exact lt_of_le_of_lt (Nat.div_le_self _ _) h
  unfold crcRound
  split
  · exact Nat.xor_lt_two_pow hs (by norm_num)
  · exact hs

theorem crcRound_iter_lt (n : Nat) {c : Nat} (h : c < 2 ^ 16) :
    crcRound^[n] c < 2 ^ 16 := by
  induction n generalizing c with
  | zero => exact h
  | succ k ih =>
    rw [Function.iterate_succ_apply]
    exact ih (crcRound_lt h)

theorem crcByte_lt {c b : Nat} (hc : c < 2 ^ 16) (hb : b < 256) :
    crcByte c b < 2 ^ 16 := by
  unfold crcByte
  exact crcRound_iter_lt 8 (Nat.xor_lt_two_pow hc (lt_trans hb (by norm_num)))

theorem crc16_foldl_lt (l : List Nat) (c : Nat) (hc : c < 2 ^ 16)
    (hb : ∀ b ∈ l, b < 256) : l.foldl crcByte c < 2 ^ 16 := by
  induction l generalizing c with
  | nil => exact hc
  | cons x xs ih =>
    exact ih _ (crcByte_lt hc (hb x (List.mem_cons_self x xs)))
      (fun b hbb => hb b (List.mem_cons_of_mem x hbb))

theorem crc16_lt (l : List Nat) (hb : ∀ b ∈ l, b < 256) : crc16 l < 65536 := by
  have := crc16_foldl_lt l 0 (by norm_num) hb
  simpa [crc16] using this

theorem fromBytesBE_toBytesBE2 (c : Nat) :
    fromBytesBE (toBytesBE2 c) = c := by
  simp [fromBytesBE, toBytesBE2]
  omega

theorem fromBytesLE_lt (l : List Nat) (hb : ∀ b ∈ l, b < 256) :
    fromBytesLE l < 2 ^ (8 * l.length) := by
  induction l with
  | nil => simp [fromBytesLE]
  | cons x xs ih =>
    have hx : x < 256 := hb x (List.mem_cons_self x xs)
    have hxs : fromBytesLE xs < 2 ^ (8 * xs.length) :=
      ih (fun b hbb => hb b (List.mem_cons_of_mem x hbb))
    have hlen : 8 * (x :: xs).length = 8 * xs.length + 8 := by
      simp [List.length_cons]; ring
    have hstep : fromBytesLE (x :: xs) = x + 256 * fromBytesLE xs := rfl
    rw [hstep, hlen, pow_add]
    have h256 : (2 : Nat) ^ 8 = 256 := by norm_num
    rw [h256]
    calc x + 256 * fromBytesLE xs < 256 + 256 * fromBytesLE xs := by omega
    _ = 256 * (fromBytesLE xs + 1) := by ring
    _ ≤ 256 * 2 ^ (8 * xs.length) := by
        exact Nat.mul_le_mul_left 256 (by omega)
    _ = 2 ^ (8 * xs.length) * 256 := by ring

theorem and_two_pow_ne_zero_iff (n i : Nat) :
    n &&& (1 <<< i) ≠ 0 ↔ n.testBit i = true := by
  rw [Nat.one_shiftLeft, Nat.and_two_pow]
  cases h : n.testBit i <;> simp

/-- The source comprehension ranges over `bits.bit_length()` (`Nat.size`);
ranging over `8 * data.length` instead selects the same bit indices. -/
theorem _parse_bytes_eq_bit_length_range (data : List Nat)
    (hb : ∀ b ∈ data, b < 256) :
    _parse_bytes data =
      ((Finset.range (fromBytesLE data).size).filter
        (fun i => fromBytesLE data &&& (1 <<< i) ≠ 0)).image (fun i => i + 1) := by
  have hlt := fromBytesLE_lt data hb
  ext x
  simp only [_parse_bytes, Finset.mem_image, Finset.mem_filter, Finset.mem_range]
  constructor
  · rintro ⟨i, ⟨hi, hset⟩, rfl⟩
    refine ⟨i, ⟨?_, hset⟩, rfl⟩
    by_contra hge
    have hsz : (fromBytesLE data).size ≤ i := by omega
    have hfalse : (fromBytesLE data).testBit i = false :=
      Nat.testBit_eq_false_of_lt (Nat.size_le.mp hsz)
    rw [and_two_pow_ne_zero_iff] at hset
    simp [hfalse] at hset
  · rintro ⟨i, ⟨hi, hset⟩, rfl⟩
    refine ⟨i, ⟨?_, hset⟩, rfl⟩
    have hsz : (fromBytesLE data).size ≤ 8 * data.length := Nat.size_le.mpr hlt
    omega

/-- Every element yielded by `_parse_bytes` is a 1-based index of a bit of
the input bitmap: it lies in `1 .. 8 * data.length`. -/
theorem mem_parse_bytes_bound {data : List Nat} {z : Nat}
    (hz : z ∈ _parse_bytes data) : 1 ≤ z ∧ z ≤ 8 * data.length := by
  simp only [_parse_bytes, Finset.mem_image, Finset.mem_filter,
    Finset.mem_range] at hz
  obtain ⟨i, ⟨hi, _⟩, rfl⟩ := hz
  omega

theorem fromBytesLE_toBytesLE2 (c : Nat) :
    fromBytesLE (toBytesLE2 c) = c := by
  simp [fromBytesLE, toBytesLE2]
  omega

theorem mem_shift_image (t : Finset Nat) (k : Nat) :
    k ∈ (t.erase 0).image (fun x => x - 1) ↔ k + 1 ∈ t := by
  simp only [Finset.mem_image, Finset.mem_erase]
  constructor
  · rintro ⟨x, ⟨hx0, hxt⟩, rfl⟩
    have hx : x - 1 + 1 = x := by omega
    rwa [hx]
  · intro h
    exact ⟨k + 1, ⟨by omega, h⟩, by omega⟩

theorem sum_two_pow_decomp (t : Finset Nat) :
    ∑ i ∈ t, 2 ^ i =
      (if 0 ∈ t then 1 else 0) +
        2 * ∑ i ∈ (t.erase 0).image (fun x => x - 1), 2 ^ i := by
  have himg : ∑ i ∈ (t.erase 0).image (fun x => x - 1), 2 ^ i
      = ∑ x ∈ t.erase 0, 2 ^ (x - 1) := by
    apply Finset.sum_image
    intro x hx y hy hxy
    have hx0 : x ≠ 0 := Finset.ne_of_mem_erase hx
    have hy0 : y ≠ 0 := Finset.ne_of_mem_erase hy
    omega
  have h2 : 2 * ∑ x ∈ t.erase 0, 2 ^ (x - 1) = ∑ x ∈ t.erase 0, 2 ^ x := by
    rw [Finset.mul_sum]
    apply Finset.sum_congr rfl
    intro x hx
    have hx0 : x ≠ 0 := Finset.ne_of_mem_erase hx
    have hpow : 2 ^ x = 2 ^ (x - 1) * 2 := by
      rw [← pow_succ]
      congr 1
      omega
    rw [hpow]
    ring
  rw [himg, h2]
  by_cases h0 : 0 ∈ t
  · rw [if_pos h0]
    have hsp := Finset.sum_erase_add t (fun i => 2 ^ i) h0
    simp only [pow_zero] at hsp
    omega
  · rw [if_neg h0, Finset.erase_eq_of_not_mem h0]
    omega

theorem testBit_sum_two_pow (t : Finset Nat) (j : Nat) :
    (∑ i ∈ t, 2 ^ i).testBit j = true ↔ j ∈ t := by
  induction j generalizing t with
  | zero =>
    rw [sum_two_pow_decomp t, Nat.testBit_zero]
    by_cases h0 : 0 ∈ t
    · rw [if_pos h0]
      simp only [decide_eq_true_eq, h0, iff_true]
      omega
    · rw [if_neg h0]
      simp only [decide_eq_true_eq, h0, iff_false]
      omega
  | succ k ih =>
    rw [sum_two_pow_decomp t, Nat.testBit_succ]
    have hdiv : ((if 0 ∈ t then 1 else 0) +
        2 * ∑ i ∈ (t.erase 0).image (fun x => x - 1), 2 ^ i) / 2
        = ∑ i ∈ (t.erase 0).image (fun x => x - 1), 2 ^ i := by
      have hble : (if 0 ∈ t then 1 else 0) ≤ 1 := by split <;> omega
      omega
    rw [hdiv, ih, mem_shift_image]

theorem geom_sum_two (n : Nat) : ∑ i ∈ Finset.range n, 2 ^ i = 2 ^ n - 1 := by
  induction n with
  | zero => simp
  | succ k ih =>
    rw [Finset.sum_range_succ, ih, pow_succ]
    have : 1 ≤ 2 ^ k := Nat.one_le_two_pow
    omega

theorem sum_two_pow_lt (t : Finset Nat) (n : Nat) (h : ∀ i ∈ t, i < n) :
    ∑ i ∈ t, 2 ^ i < 2 ^ n := by
  have hsub : t ⊆ Finset.range n := fun i hi => Finset.mem_range.mpr (h i hi)
  have hle : ∑ i ∈ t, 2 ^ i ≤ ∑ i ∈ Finset.range n, 2 ^ i :=
    Finset.sum_le_sum_of_subset hsub
  rw [geom_sum_two] at hle
  have : 1 ≤ 2 ^ n := Nat.one_le_two_pow
  omega

theorem zonesToModuleId_cases {zones mid : Nat}
    (h : zonesToModuleId zones = some mid) : mid = 13 ∨ mid = 19 := by
  unfold zonesToModuleId at h
  split_ifs at h <;> simp_all

theorem zonesToModuleId_lt {zones mid : Nat}
    (h : zonesToModuleId zones = some mid) : mid < 256 := by
  rcases zonesToModuleId_cases h with rfl | rfl <;> omega

theorem mkOutput_length (moduleId : Nat) (message : Msg) (channel : Chan)
    (address dat : List Nat) :
    (mkOutput moduleId message channel address dat).length
      = address.length + dat.length + 4 := by
  simp [mkOutput]

theorem mkOutput_bytes_lt {moduleId : Nat} {message : Msg} {channel : Chan}
    {address dat : List Nat} (hm : moduleId < 256)
    (ha : ∀ b ∈ address, b < 256) (hd : ∀ b ∈ dat, b < 256)
    (halen : address.length < 256) :
    ∀ b ∈ mkOutput moduleId message channel address dat, b < 256 := by
  intro b hb
  simp only [mkOutput, List.mem_cons, List.mem_append] at hb
  rcases hb with rfl | rfl | rfl | rfl | hb | hb
  · exact hm
  · cases message <;> decide
  · cases channel <;> decide
  · exact halen
  · exact ha b hb
  · exact hd b hb

theorem _send_message_eq_some (moduleId : Nat) (message : Msg) (channel : Chan)
    (address dat : List Nat) (hm : moduleId < 256)
    (ha : ∀ b ∈ address, b < 256) (hd : ∀ b ∈ dat, b < 256)
    (hlen : address.length + dat.length + 4 ≤ 255) :
    _send_message moduleId message channel address dat =
      some ⟨sendFrame moduleId message channel address dat,
            if message = Msg.STATUS then 0 else 1⟩ := by
  have hout := mkOutput_length moduleId message channel address dat
  have houtb : ∀ b ∈ mkOutput moduleId message channel address dat, b < 256 :=
    mkOutput_bytes_lt hm ha hd (by omega)
  have hcrc : crc16 ((mkOutput moduleId message channel address dat).length ::
      mkOutput moduleId message channel address dat) < 65536 := by
    apply crc16_lt
    intro b hb
    rcases List.mem_cons.mp hb with rfl | hb
    · omega
    · exact houtb b hb
  simp only [_send_message]
  rw [if_neg (by omega), if_neg (by omega), if_neg (by omega)]

theorem listGet_ok_lt {α : Type} {l : List α} {i : Nat} {a : α}
    (h : listGet l i = .ok a) : i < l.length := by
  unfold listGet at h
  cases hg : l.get? i with
  | none => rw [hg] at h; simp at h
  | some b =>
    obtain ⟨hlt, _⟩ := List.get?_eq_some.mp hg
    exact hlt

theorem listGet_ok_mem {α : Type} {l : List α} {i : Nat} {a : α}
    (h : listGet l i = .ok a) : a ∈ l := by
  unfold listGet at h
  cases hg : l.get? i with
  | none => rw [hg] at h; simp at h
  | some b =>
    rw [hg] at h
    simp only [Except.ok.injEq] at h
    exact h ▸ List.get?_mem hg

theorem mapE_ok_length {α β : Type} {f : α → Except PErr β} {l : List α}
    {l' : List β} (h : mapE f l = .ok l') : l'.length = l.length := by
  induction l generalizing l' with
  | nil =>
    simp only [mapE, Except.ok.injEq] at h
    simp [← h]
  | cons x xs ih =>
    cases hfx : f x with
    | error e =>
      simp only [mapE, hfx] at h
      exact Except.noConfusion h
    | ok b =>
      cases hm : mapE f xs with
      | error e =>
        simp only [mapE, hfx, hm] at h
        exact Except.noConfusion h
      | ok bs =>
        simp only [mapE, hfx, hm, Except.ok.injEq] at h
        rw [← h]
        simp [ih hm]

theorem clustered_foldl_snd (response : List Nat) (fs : Finset String) (i : Nat) :
    (clusteredSpec.foldl (fun st spec =>
      (st.1 ∪ (_parse_bytes (sliceL response st.2 spec.2)).image spec.1,
       st.2 + spec.2)) (fs, i)).2 = i + 17 := by
  simp [clusteredSpec]

/-- Decoding the frame built by `_send_message` recovers the payload. -/
theorem read_sendFrame (zones mid : Nat) (message : Msg) (channel : Chan)
    (address dat : List Nat)
    (hmid : zonesToModuleId zones = some mid)
    (ha : ∀ b ∈ address, b < 256) (hd : ∀ b ∈ dat, b < 256)
    (hlen : address.length + dat.length + 4 ≤ 255) :
    _read_message mid (mkOutput mid message channel address dat).length
        ((sendFrame mid message channel address dat).drop 1)
      = .ok ((mkOutput mid message channel address dat).length ::
             mkOutput mid message channel address dat) := by
  have hmlt : mid < 256 := zonesToModuleId_lt hmid
  set out := mkOutput mid message channel address dat with hout_def
  set tb := toBytesBE2 (crc16 (out.length :: out)) with htb_def
  have hdrop1 : (sendFrame mid message channel address dat).drop 1 = out ++ tb := by
    simp [sendFrame, hout_def, htb_def]
  rw [hdrop1]
  have htblen : tb.length = 2 := by simp [htb_def, toBytesBE2]
  have hlen_data : (out.length :: (out ++ tb)).length = out.length + 3 := by
    simp [htblen]
  have hgarbage :
      ¬ (out.length :: (out ++ tb) =
        List.replicate (out.length :: (out ++ tb)).length out.length) := by
    intro hcond
    have hall := (List.eq_replicate_iff.mp hcond).2
    have hmem_mid : mid ∈ out.length :: (out ++ tb) := by
      simp [hout_def, mkOutput]
    have hmem_msg : Msg.value message ∈ out.length :: (out ++ tb) := by
      simp [hout_def, mkOutput]
    have hmid_eq := hall mid hmem_mid
    have hmsg_eq := hall (Msg.value message) hmem_msg
    rcases zonesToModuleId_cases hmid with rfl | rfl <;>
      cases message <;> simp [Msg.value] at hmsg_eq <;> omega
  have htake : (out.length :: (out ++ tb)).take
      ((out.length :: (out ++ tb)).length - 2) = out.length :: out := by
    rw [hlen_data, show out.length + 3 - 2 = out.length + 1 from rfl,
      List.take_succ_cons, List.take_left]
  have hdropc : (out.length :: (out ++ tb)).drop
      ((out.length :: (out ++ tb)).length - 2) = tb := by
    rw [hlen_data, show out.length + 3 - 2 = out.length + 1 from rfl,
      List.drop_succ_cons, List.drop_left]
  have hmod : (out.length :: out).drop 1 = out := by simp
  have hmod1 : out.take 1 = [mid] := by
    simp [hout_def, mkOutput]
  simp only [_read_message]
  rw [if_neg hgarbage, if_neg (by simp [hlen_data]), htake, hdropc, htb_def,
    fromBytesBE_toBytesBE2, if_neg (by simp), hmod, hmod1, if_neg (by simp)]

/-- Claim C1 (amended): for every message kind, channel kind, address and
data of bytes with `|addr| + |data| + 4 ≤ 255` (the payload adds four
header bytes, so this is what fits the one-byte length field),
`_send_message` produces the frame `length :: payload ++ crc_be`,
`_read_message` decodes it back to exactly `length :: payload` (so the
garbage, length, CRC and module-id checks all pass), and the frame
satisfies `frame[0] = len(payload) = len(frame) - 3`. -/
theorem frame_codec_roundtrip (zones mid : Nat) (message : Msg) (channel : Chan)
    (address dat : List Nat)
    (hmid : zonesToModuleId zones = some mid)
    (ha : ∀ b ∈ address, b < 256) (hd : ∀ b ∈ dat, b < 256)
    (hlen : address.length + dat.length + 4 ≤ 255) :
    _send_message mid message channel address dat =
      some ⟨sendFrame mid message channel address dat,
            if message = Msg.STATUS then 0 else 1⟩ ∧
    _read_message mid (mkOutput mid message channel address dat).length
        ((sendFrame mid message channel address dat).drop 1) =
      .ok ((mkOutput mid message channel address dat).length ::
        mkOutput mid message channel address dat) ∧
    (sendFrame mid message channel address dat).headI =
      (mkOutput mid message channel address dat).length ∧
    (mkOutput mid message channel address dat).length =
      (sendFrame mid message channel address dat).length - 3 := by
  have hmlt : mid < 256 := zonesToModuleId_lt hmid
  refine ⟨_send_message_eq_some mid message channel address dat hmlt ha hd hlen,
          read_sendFrame zones mid message channel address dat hmid ha hd hlen,
          rfl, ?_⟩
  simp [sendFrame, toBytesBE2]

/-- Witness for C1: a concrete LOGIN WRITE frame on a 32-zone panel. -/
theorem frame_codec_roundtrip_witness :
    _send_message 13 Msg.WRITE Chan.LOGIN [] [1, 2, 3, 4, 255, 255] =
      some ⟨sendFrame 13 Msg.WRITE Chan.LOGIN [] [1, 2, 3, 4, 255, 255],
            if Msg.WRITE = Msg.STATUS then 0 else 1⟩ ∧
    _read_message 13 (mkOutput 13 Msg.WRITE Chan.LOGIN [] [1, 2, 3, 4, 255, 255]).length
        ((sendFrame 13 Msg.WRITE Chan.LOGIN [] [1, 2, 3, 4, 255, 255]).drop 1) =
      .ok ((mkOutput 13 Msg.WRITE Chan.LOGIN [] [1, 2, 3, 4, 255, 255]).length ::
        mkOutput 13 Msg.WRITE Chan.LOGIN [] [1, 2, 3, 4, 255, 255]) ∧
    (sendFrame 13 Msg.WRITE Chan.LOGIN [] [1, 2, 3, 4, 255, 255]).headI =
      (mkOutput 13 Msg.WRITE Chan.LOGIN [] [1, 2, 3, 4, 255, 255]).length ∧
    (mkOutput 13 Msg.WRITE Chan.LOGIN [] [1, 2, 3, 4, 255, 255]).length =
      (sendFrame 13 Msg.WRITE Chan.LOGIN [] [1, 2, 3, 4, 255, 255]).length - 3 :=
  frame_codec_roundtrip 32 13 Msg.WRITE Chan.LOGIN [] [1, 2, 3, 4, 255, 255]
    (by decide) (by decide) (by decide) (by decide)

/-- Counterexample to C1 as stated: the claimed bound
`|addr| + |data| + 3 ≤ 255` admits a payload of 256 bytes, whose length
does not fit the one-byte length field (`bytes([256])` raises), so no
frame is produced at all. -/
theorem frame_codec_roundtrip_boundary_cex :
    ([] : List Nat).length ≤ 255 ∧
    ([] : List Nat).length + (List.replicate 252 (0 : Nat)).length + 3 ≤ 255 ∧
    _send_message 13 Msg.STATUS Chan.IDLE [] (List.replicate 252 0) = none := by
  refine ⟨by decide, by decide, ?_⟩
  have hlen : (mkOutput 13 Msg.STATUS Chan.IDLE [] (List.replicate 252 0)).length = 256 := by
    rw [mkOutput_length]
    simp
  simp only [_send_message]
  rw [if_neg (by simp), if_pos (by rw [hlen])]

/-- Claim C2: whenever the full `L+3`-byte buffer read by `_read_message`
consists of one repeated identical byte (its first byte is the length
`L`, so the repeated byte is `L`), the read fails with
`GarbageInputError` reporting `L`.  The theorem holds for every module id
and regardless of CRC validity, showing the garbage check precedes the
short-frame, CRC and module-id checks. -/
theorem garbage_detection (moduleId L : Nat) (buf : List Nat)
    (hlen : buf.length = L + 2) (hrep : ∀ x ∈ L :: buf, x = L) :
    _read_message moduleId L buf = .error (.garbage L) := by
  have hdata : L :: buf = List.replicate (L :: buf).length L :=
    List.eq_replicate_iff.mpr ⟨rfl, hrep⟩
  simp only [_read_message]
  rw [if_pos hdata]

/-- Witness for C2 at a small instance: length byte 2 followed by the
repeated buffer `02 02 02 02` (a 5-byte frame of the identical byte 02). -/
theorem garbage_detection_witness :
    _read_message 13 2 [2, 2, 2, 2] = .error (.garbage 2) :=
  garbage_detection 13 2 [2, 2, 2, 2] (by decide) (by decide)

/-- Claim C8: `_send_message` is followed by a 1-second sleep exactly when
the message kind is not STATUS; the status poll is the only outbound
command without the settle delay. -/
theorem settle_delay (moduleId : Nat) (message : Msg) (channel : Chan)
    (address dat : List Nat) (r : SendResult)
    (h : _send_message moduleId message channel address dat = some r) :
    (r.sleepSecs = 1 ↔ message ≠ Msg.STATUS) ∧
    (r.sleepSecs = 0 ↔ message = Msg.STATUS) := by
  simp only [_send_message] at h
  by_cases h1 : 256 ≤ address.length
  · rw [if_pos h1] at h
    exact Option.noConfusion h
  · rw [if_neg h1] at h
    by_cases h2 : 256 ≤ (mkOutput moduleId message channel address dat).length
    · rw [if_pos h2] at h
      exact Option.noConfusion h
    · rw [if_neg h2] at h
      by_cases h3 : 65536 ≤ crc16 ((mkOutput moduleId message channel address dat).length ::
          mkOutput moduleId message channel address dat)
      · rw [if_pos h3] at h
        exact Option.noConfusion h
      · rw [if_neg h3] at h
        simp only [Option.some.injEq] at h
        rw [← h]
        by_cases h4 : message = Msg.STATUS <;> simp [h4]

/-- Witness for C8: the STATUS poll itself sleeps 0 seconds. -/
theorem settle_delay_witness :
    ((⟨sendFrame 13 Msg.STATUS Chan.IDLE [] [], 0⟩ : SendResult).sleepSecs = 1 ↔
      Msg.STATUS ≠ Msg.STATUS) ∧
    ((⟨sendFrame 13 Msg.STATUS Chan.IDLE [] [], 0⟩ : SendResult).sleepSecs = 0 ↔
      Msg.STATUS = Msg.STATUS) :=
  settle_delay 13 Msg.STATUS Chan.IDLE [] []
    ⟨sendFrame 13 Msg.STATUS Chan.IDLE [] [], 0⟩ (by decide)

/-- Claim C5: for every code of 4 to 6 decimal digits, the login data is
exactly 6 bytes: the digit values first, then `0xFF` padding; the payload
sent is a WRITE (0x0f) on channel LOGIN (0x04) with empty address; and
`login("1234")` sends data bytes `01 02 03 04 FF FF`. -/
theorem login_encoding (code : String)
    (hlen4 : 4 ≤ code.data.length) (hlen6 : code.data.length ≤ 6)
    (hdig : ∀ c ∈ code.data, 48 ≤ c.toNat ∧ c.toNat ≤ 57) :
    (loginData code).length = 6 ∧
    (loginData code).take code.data.length =
      code.data.map (fun c => c.toNat - 48) ∧
    (∀ b ∈ (loginData code).take code.data.length, b ≤ 9) ∧
    (loginData code).drop code.data.length =
      List.replicate (6 - code.data.length) 255 ∧
    (∀ mid, mkOutput mid Msg.WRITE Chan.LOGIN [] (loginData code) =
      mid :: 15 :: 4 :: 0 :: loginData code) ∧
    loginData "1234" = [1, 2, 3, 4, 255, 255] := by
  have hdl : (code.data.map (fun c => c.toNat - 48)).length = code.data.length :=
    List.length_map _ _
  have h2 : (loginData code).take code.data.length =
      code.data.map (fun c => c.toNat - 48) := by
    simp only [loginData]
    conv_lhs => rw [← hdl]
    exact List.take_left _ _
  have h4 : (loginData code).drop code.data.length =
      List.replicate (6 - code.data.length) 255 := by
    simp only [loginData]
    conv_lhs => rw [← hdl]
    rw [List.drop_left, hdl]
  refine ⟨?_, h2, ?_, h4, ?_, by decide⟩
  · simp only [loginData, List.length_append, List.length_replicate, hdl]
    omega
  · intro b hb
    rw [h2] at hb
    obtain ⟨ch, hch, rfl⟩ := List.mem_map.mp hb
    have := hdig ch hch
    omega
  · intro mid
    simp [mkOutput, Msg.value, Chan.value]

/-- Witness for C5 at the concrete code `"1234"`. -/
theorem login_encoding_witness :
    (loginData "1234").length = 6 ∧
    (loginData "1234").take "1234".data.length =
      "1234".data.map (fun c => c.toNat - 48) ∧
    (∀ b ∈ (loginData "1234").take "1234".data.length, b ≤ 9) ∧
    (loginData "1234").drop "1234".data.length =
      List.replicate (6 - "1234".data.length) 255 ∧
    (∀ mid, mkOutput mid Msg.WRITE Chan.LOGIN [] (loginData "1234") =
      mid :: 15 :: 4 :: 0 :: loginData "1234") ∧
    loginData "1234" = [1, 2, 3, 4, 255, 255] :=
  login_encoding "1234" (by decide) (by decide) (by decide)

/-- Claim C9 (implicit): a concrete frame that passes the garbage, length,
CRC and module-id checks of `_read_message` and the message/channel/
address checks of `get_status`, but whose body is shorter than the status
record needs, makes `get_status` fail with an `IndexError` rather than
one of the protocol's `Error` kinds. -/
theorem status_parser_not_total :
    _read_message 13 16
        ([13, 5, 1, 2, 0, 0, 0, 0, 0, 0, 0, 0, 0, 0, 0, 0] ++
          toBytesBE2 (crc16 (16 :: [13, 5, 1, 2, 0, 0, 0, 0, 0, 0, 0, 0, 0, 0, 0, 0]))) =
      .ok (16 :: [13, 5, 1, 2, 0, 0, 0, 0, 0, 0, 0, 0, 0, 0, 0, 0]) ∧
    sliceL (16 :: [13, 5, 1, 2, 0, 0, 0, 0, 0, 0, 0, 0, 0, 0, 0, 0]) 2 1 = [5] ∧
    sliceL (16 :: [13, 5, 1, 2, 0, 0, 0, 0, 0, 0, 0, 0, 0, 0, 0, 0]) 3 1 = [1] ∧
    sliceL (16 :: [13, 5, 1, 2, 0, 0, 0, 0, 0, 0, 0, 0, 0, 0, 0, 0]) 4 3 = [2, 0, 0] ∧
    (16 :: [13, 5, 1, 2, 0, 0, 0, 0, 0, 0, 0, 0, 0, 0, 0, 0]).length <
      7 + 4 * 12 + 16 + 6 + 12 + 4 + 1 ∧
    get_status 32 (16 :: [13, 5, 1, 2, 0, 0, 0, 0, 0, 0, 0, 0, 0, 0, 0, 0]) =
      .error .indexError ∧
    PErr.isProtocol .indexError = false := by decide

theorem armRun_eq_of (zones mid : Nat) (mode : Arm) (parts : Finset Nat)
    (nextResponse : List Nat) (a : List Nat)
    (ha : armAddress parts = some a) :
    armRun zones mid mode parts nextResponse =
      match _send_message mid (if mode = Arm.DISARM then Msg.OPEN else Msg.CLOSE)
          Chan.SYSTEM a [mode.value] with
      | none => none
      | some r => some (r, get_status zones nextResponse) := by
  unfold armRun
  rw [ha]

theorem mem_Icc_bounds {s : Finset Nat} (hs : s ⊆ Finset.Icc 1 16) :
    ∀ p ∈ s, 1 ≤ p ∧ p ≤ 16 :=
  fun p hp => Finset.mem_Icc.mp (hs hp)

theorem sum_shift_eq {s : Finset Nat} (hs : s ⊆ Finset.Icc 1 16) :
    ∑ i ∈ s.image (fun p => p - 1), 2 ^ i = ∑ p ∈ s, 2 ^ (p - 1) := by
  apply Finset.sum_image
  intro x hx y hy hxy
  have hxb := mem_Icc_bounds hs x hx
  have hyb := mem_Icc_bounds hs y hy
  omega

theorem partition_sum_lt {s : Finset Nat} (hs : s ⊆ Finset.Icc 1 16) :
    (∑ p ∈ s, 2 ^ (p - 1)) < 65536 := by
  rw [← sum_shift_eq hs]
  have hlt : ∀ i ∈ s.image (fun p => p - 1), i < 16 := by
    intro i hi
    obtain ⟨p, hp, rfl⟩ := Finset.mem_image.mp hi
    have := mem_Icc_bounds hs p hp
    omega
  have := sum_two_pow_lt (s.image (fun p => p - 1)) 16 hlt
  omega

theorem armAddress_eq_of_subset (s : Finset Nat) (hs : s ⊆ Finset.Icc 1 16) :
    armAddress s = some (toBytesLE2 (∑ p ∈ s, 2 ^ (p - 1))) := by
  have h0 : 0 ∉ s := fun h => by have := mem_Icc_bounds hs 0 h; omega
  simp only [armAddress]
  rw [if_neg h0, if_pos (partition_sum_lt hs)]

theorem parse_bytes_toLE2_sum (s : Finset Nat) (hs : s ⊆ Finset.Icc 1 16) :
    _parse_bytes (toBytesLE2 (∑ p ∈ s, 2 ^ (p - 1))) = s := by
  have hfble : fromBytesLE (toBytesLE2 (∑ p ∈ s, 2 ^ (p - 1)))
      = ∑ p ∈ s, 2 ^ (p - 1) := fromBytesLE_toBytesLE2 _
  have hlen2 : (toBytesLE2 (∑ p ∈ s, 2 ^ (p - 1))).length = 2 := rfl
  ext x
  simp only [_parse_bytes, Finset.mem_image, Finset.mem_filter, Finset.mem_range,
    hfble, hlen2]
  constructor
  · rintro ⟨i, ⟨hi, hbit⟩, rfl⟩
    rw [and_two_pow_ne_zero_iff, ← sum_shift_eq hs, testBit_sum_two_pow] at hbit
    obtain ⟨p, hp, hpi⟩ := Finset.mem_image.mp hbit
    have hpb := mem_Icc_bounds hs p hp
    have hpeq : p = i + 1 := by omega
    rwa [← hpeq]
  · intro hx
    have hxb := mem_Icc_bounds hs x hx
    refine ⟨x - 1, ⟨by omega, ?_⟩, by omega⟩
    rw [and_two_pow_ne_zero_iff, ← sum_shift_eq hs, testBit_sum_two_pow]
    exact Finset.mem_image.mpr ⟨x, hx, rfl⟩

/-- Claim C6: for every set of partitions inside `{1..16}`, encoding it as
the little-endian 16-bit bitmask `sum(1 << (p-1))` (the address built by
`arm`) and decoding the two address bytes with `_parse_bytes` yields the
original set back. -/
theorem partition_bitmask_roundtrip (s : Finset Nat)
    (hs : s ⊆ Finset.Icc 1 16) :
    armAddress s = some (toBytesLE2 (∑ p ∈ s, 2 ^ (p - 1))) ∧
    _parse_bytes (toBytesLE2 (∑ p ∈ s, 2 ^ (p - 1))) = s :=
  ⟨armAddress_eq_of_subset s hs, parse_bytes_toLE2_sum s hs⟩

/-- Witness for C6 at the concrete partition set `{1, 3}`. -/
theorem partition_bitmask_roundtrip_witness :
    armAddress {1, 3} =
      some (toBytesLE2 (∑ p ∈ ({1, 3} : Finset Nat), 2 ^ (p - 1))) ∧
    _parse_bytes (toBytesLE2 (∑ p ∈ ({1, 3} : Finset Nat), 2 ^ (p - 1))) =
      {1, 3} :=
  partition_bitmask_roundtrip {1, 3} (by decide)

/-- Claim C7: `arm` sends OPEN on SYSTEM when the mode is DISARM and CLOSE
on SYSTEM otherwise, with the mode byte as data and the little-endian u16
partition bitmask as address, sleeps the settle second, and returns
`get_status()` on the panel's next response. -/
theorem arm_message_construction (zones mid : Nat) (mode : Arm)
    (parts : Finset Nat) (nextResponse : List Nat)
    (hmid : zonesToModuleId zones = some mid)
    (hsub : parts ⊆ Finset.Icc 1 16) :
    armRun zones mid mode parts nextResponse =
      some (⟨sendFrame mid (if mode = Arm.DISARM then Msg.OPEN else Msg.CLOSE)
               Chan.SYSTEM (toBytesLE2 (∑ p ∈ parts, 2 ^ (p - 1)))
               [mode.value], 1⟩,
            get_status zones nextResponse) := by
  have haddr := armAddress_eq_of_subset parts hsub
  have hvlt := partition_sum_lt hsub
  have hm : mid < 256 := zonesToModuleId_lt hmid
  have habytes : ∀ b ∈ toBytesLE2 (∑ p ∈ parts, 2 ^ (p - 1)), b < 256 := by
    intro b hb
    simp only [toBytesLE2, List.mem_cons, List.not_mem_nil, or_false] at hb
    rcases hb with rfl | rfl <;> omega
  have hdbytes : ∀ b ∈ [Arm.value mode], b < 256 := by
    intro b hb
    simp only [List.mem_singleton] at hb
    subst hb
    cases mode <;> decide
  have hlen : (toBytesLE2 (∑ p ∈ parts, 2 ^ (p - 1))).length +
      ([Arm.value mode]).length + 4 ≤ 255 := by
    simp [toBytesLE2]
  have hsend := _send_message_eq_some mid
    (if mode = Arm.DISARM then Msg.OPEN else Msg.CLOSE) Chan.SYSTEM
    (toBytesLE2 (∑ p ∈ parts, 2 ^ (p - 1))) [mode.value] hm habytes hdbytes hlen
  have hsleep : (if (if mode = Arm.DISARM then Msg.OPEN else Msg.CLOSE) =
      Msg.STATUS then (0 : Nat) else 1) = 1 := by
    cases mode <;> simp
  rw [hsleep] at hsend
  rw [armRun_eq_of zones mid mode parts nextResponse _ haddr, hsend]

/-- Witness for C7: `arm(FULL_ARM, {1, 3})` on a 32-zone panel. -/
theorem arm_message_construction_witness :
    armRun 32 13 Arm.FULL_ARM {1, 3} [] =
      some (⟨sendFrame 13
               (if Arm.FULL_ARM = Arm.DISARM then Msg.OPEN else Msg.CLOSE)
               Chan.SYSTEM (toBytesLE2 (∑ p ∈ ({1, 3} : Finset Nat), 2 ^ (p - 1)))
               [Arm.FULL_ARM.value], 1⟩,
            get_status 32 []) :=
  arm_message_construction 32 13 Arm.FULL_ARM {1, 3} [] (by decide) (by decide)

/-- Claim C3: dispatch of `get_status` on the frame returned by the read
step: a non-STATUS message byte (offset 2) fails with the invalid-message
`Error`; an IDLE channel byte (offset 3) returns exactly
`{logged in: false}`; a SYSTEM channel whose address bytes 4..7 are not
`02 00 00` fails with the invalid-address `Error`; and any other channel
fails with the invalid-status `Error`. -/
theorem get_status_dispatch (zones : Nat) (response : List Nat)
    (hne : response ≠ []) :
    (sliceL response 2 1 ≠ [5] →
      get_status zones response = .error .invalidMessage) ∧
    (sliceL response 2 1 = [5] → sliceL response 3 1 = [0] →
      get_status zones response = .ok { loggedIn := false }) ∧
    (sliceL response 2 1 = [5] → sliceL response 3 1 = [1] →
      sliceL response 4 3 ≠ [2, 0, 0] →
      get_status zones response = .error .invalidAddress) ∧
    (sliceL response 2 1 = [5] → sliceL response 3 1 ≠ [0] →
      sliceL response 3 1 ≠ [1] →
      get_status zones response = .error .invalidStatus) := by
  refine ⟨fun hm => ?_, fun hm hid => ?_, fun hm hsys haddr => ?_,
    fun hm hid hsys => ?_⟩
  · simp only [get_status]
    rw [if_neg hne, if_pos hm]
  · simp only [get_status]
    rw [if_neg hne, if_neg (by simp [hm]), if_pos hid]
  · simp only [get_status]
    rw [if_neg hne, if_neg (by simp [hm]), if_neg (by simp [hsys]),
      if_neg (by simp [hsys]), if_pos haddr]
  · simp only [get_status]
    rw [if_neg hne, if_neg (by simp [hm]), if_neg hid, if_pos hsys]

/-- Witness for C3 at a concrete 3-byte frame with message byte 7. -/
theorem get_status_dispatch_witness :
    (sliceL [0, 13, 7] 2 1 ≠ [5] →
      get_status 32 [0, 13, 7] = .error .invalidMessage) ∧
    (sliceL [0, 13, 7] 2 1 = [5] → sliceL [0, 13, 7] 3 1 = [0] →
      get_status 32 [0, 13, 7] = .ok { loggedIn := false }) ∧
    (sliceL [0, 13, 7] 2 1 = [5] → sliceL [0, 13, 7] 3 1 = [1] →
      sliceL [0, 13, 7] 4 3 ≠ [2, 0, 0] →
      get_status 32 [0, 13, 7] = .error .invalidAddress) ∧
    (sliceL [0, 13, 7] 2 1 = [5] → sliceL [0, 13, 7] 3 1 ≠ [0] →
      sliceL [0, 13, 7] 3 1 ≠ [1] →
      get_status 32 [0, 13, 7] = .error .invalidStatus) :=
  get_status_dispatch 32 [0, 13, 7] (by decide)

/-- Inversion of a successful `statusBody` run: the final flags read pins
the response length, and every produced zone set is `_parse_bytes` of a
`zones/8`-byte slice of the response. -/
theorem statusBody_ok_inv {zones zb : Nat} {response : List Nat}
    {r : StatusRec} (h : statusBody zones zb response = .ok r) :
    ∃ index arms i0 i1 i2 i3,
      mapE armOfByte (sliceL response index 16) = .ok arms ∧
      index + 43 < response.length ∧
      r.partitions = some (arms.enum.map (fun p => (p.1 + 1, p.2.lowerName))) ∧
      r.openZones = some (_parse_bytes (sliceL response i0 (zones / 8))) ∧
      r.alarmedZones = some (_parse_bytes (sliceL response i1 (zones / 8))) ∧
      r.bypassedZones = some (_parse_bytes (sliceL response i2 (zones / 8))) ∧
      r.failedZones = some (_parse_bytes (sliceL response i3 (zones / 8))) := by
  simp only [statusBody] at h
  split at h
  · exact Except.noConfusion h
  rename_i x0 z0 hz0
  split at h
  · exact Except.noConfusion h
  rename_i x1 z1 hz1
  split at h
  · exact Except.noConfusion h
  rename_i x2 z2 hz2
  split at h
  · exact Except.noConfusion h
  rename_i x3 z3 hz3
  split at h
  · exact Except.noConfusion h
  rename_i xl index hidx
  split at h
  · exact Except.noConfusion h
  rename_i xa arms harms
  split at h
  · exact Except.noConfusion h
  rename_i hkey
  split at h
  · exact Except.noConfusion h
  rename_i xf flags hflags
  simp only [Except.ok.injEq] at h
  subst h
  obtain ⟨i0, hi0mem, hi0⟩ := List.mem_map.mp (listGet_ok_mem hz0)
  obtain ⟨i1, hi1mem, hi1⟩ := List.mem_map.mp (listGet_ok_mem hz1)
  obtain ⟨i2, hi2mem, hi2⟩ := List.mem_map.mp (listGet_ok_mem hz2)
  obtain ⟨i3, hi3mem, hi3⟩ := List.mem_map.mp (listGet_ok_mem hz3)
  rw [clustered_foldl_snd] at hflags
  have hlt := listGet_ok_lt hflags
  refine ⟨index, arms, i0, i1, i2, i3, harms, by omega, rfl, ?_, ?_, ?_, ?_⟩
  · rw [← hi0]
  · rw [← hi1]
  · rw [← hi2]
  · rw [← hi3]

/-- Claim C4: for every response whose SYSTEM-channel STATUS body decodes
successfully, the partitions mapping is a total function on partition
numbers 1..16 and every value is one of the four lowercase `Arm` names. -/
theorem partitions_total (zones : Nat) (response : List Nat) (r : StatusRec)
    (hok : get_status zones response = .ok r)
    (hsys : sliceL response 3 1 = [1]) :
    r.partitions.map (fun pl => pl.map Prod.fst) =
      some ((List.range 16).map (fun i => i + 1)) ∧
    ∀ pl, r.partitions = some pl → ∀ x ∈ pl,
      x.2 = "disarm" ∨ x.2 = "full_arm" ∨ x.2 = "home1" ∨ x.2 = "home2" := by
  have hne : response ≠ [] := by
    intro h0
    rw [h0] at hsys
    simp [sliceL] at hsys
  simp only [get_status] at hok
  rw [if_neg hne] at hok
  by_cases hm : sliceL response 2 1 ≠ [5]
  · rw [if_pos hm] at hok
    exact absurd hok (by simp)
  rw [if_neg hm] at hok
  rw [if_neg (by simp [hsys])] at hok
  rw [if_neg (by simp [hsys])] at hok
  by_cases haddr : sliceL response 4 3 ≠ [2, 0, 0]
  · rw [if_pos haddr] at hok
    exact absurd hok (by simp)
  rw [if_neg haddr] at hok
  split at hok
  · exact Except.noConfusion hok
  rename_i zb hzb
  obtain ⟨index, arms, i0, i1, i2, i3, hmapE, hflags, hparts, _, _, _, _⟩ :=
    statusBody_ok_inv hok
  have hslen : (sliceL response index 16).length = 16 := by
    simp only [sliceL, List.length_take, List.length_drop]
    omega
  have harmlen : arms.length = 16 := by
    rw [mapE_ok_length hmapE, hslen]
  constructor
  · rw [hparts]
    simp only [Option.map_some']
    rw [List.map_map]
    have hcomp : (Prod.fst ∘ fun p : Nat × Arm => (p.1 + 1, p.2.lowerName)) =
        ((fun i => i + 1) ∘ Prod.fst) := rfl
    rw [hcomp, ← List.map_map, List.enum_map_fst, harmlen]
  · intro pl hpl x hx
    rw [hparts] at hpl
    simp only [Option.some.injEq] at hpl
    rw [← hpl] at hx
    obtain ⟨p, hp, rfl⟩ := List.mem_map.mp hx
    cases p.2 <;> simp [Arm.lowerName]

/-- Witness for C4: the all-zero 99-byte status body decodes with all 16
partitions disarmed. -/
theorem partitions_total_witness :
    rec99.partitions.map (fun pl => pl.map Prod.fst) =
      some ((List.range 16).map (fun i => i + 1)) ∧
    ∀ pl, rec99.partitions = some pl → ∀ x ∈ pl,
      x.2 = "disarm" ∨ x.2 = "full_arm" ∨ x.2 = "home1" ∨ x.2 = "home2" :=
  partitions_total 32 resp99 rec99 (by decide) (by decide)

/-- Claim C10 (implicit): every element of each decoded zone set (open,
alarmed, bypassed, failed) lies in `1..capacity`: each bitmap slice is at
most `capacity/8` bytes (of byte values) and `_parse_bytes` only yields
1-based indices up to 8 times the slice length. -/
theorem zone_numbers_bounded (zones : Nat) (response : List Nat)
    (r : StatusRec) (s : Finset Nat)
    (hz : zones = 32 ∨ zones = 96 ∨ zones = 144)
    (hb : ∀ b ∈ response, b < 256)
    (hok : get_status zones response = .ok r)
    (hs : r.openZones = some s ∨ r.alarmedZones = some s ∨
      r.bypassedZones = some s ∨ r.failedZones = some s) :
    ∀ z ∈ s, 1 ≤ z ∧ z ≤ zones := by
  simp only [get_status] at hok
  by_cases hne : response = []
  · rw [if_pos hne] at hok
    simp only [Except.ok.injEq] at hok
    rw [← hok] at hs
    rcases hs with hcase | hcase | hcase | hcase <;> simp at hcase
  rw [if_neg hne] at hok
  by_cases hm : sliceL response 2 1 ≠ [5]
  · rw [if_pos hm] at hok
    exact absurd hok (by simp)
  rw [if_neg hm] at hok
  by_cases hid : sliceL response 3 1 = [0]
  · rw [if_pos hid] at hok
    simp only [Except.ok.injEq] at hok
    rw [← hok] at hs
    rcases hs with hcase | hcase | hcase | hcase <;> simp at hcase
  rw [if_neg hid] at hok
  by_cases hsys : sliceL response 3 1 ≠ [1]
  · rw [if_pos hsys] at hok
    exact absurd hok (by simp)
  rw [if_neg hsys] at hok
  by_cases haddr : sliceL response 4 3 ≠ [2, 0, 0]
  · rw [if_pos haddr] at hok
    exact absurd hok (by simp)
  rw [if_neg haddr] at hok
  split at hok
  · exact Except.noConfusion hok
  rename_i zb hzb
  obtain ⟨index, arms, i0, i1, i2, i3, _, _, _, h0, h1, h2, h3⟩ :=
    statusBody_ok_inv hok
  have hbound : ∀ i : Nat, ∀ z ∈ _parse_bytes (sliceL response i (zones / 8)),
      1 ≤ z ∧ z ≤ zones := by
    intro i z hzmem
    have hslen : (sliceL response i (zones / 8)).length ≤ zones / 8 :=
      List.length_take_le _ _
    have hmem := mem_parse_bytes_bound hzmem
    have h8 : 8 * (zones / 8) = zones := by
      rcases hz with rfl | rfl | rfl <;> decide
    refine ⟨hmem.1, ?_⟩
    calc z ≤ 8 * (sliceL response i (zones / 8)).length := hmem.2
    _ ≤ 8 * (zones / 8) := by omega
    _ = zones := h8
  rcases hs with hcase | hcase | hcase | hcase
  · rw [h0] at hcase
    simp only [Option.some.injEq] at hcase
    intro z hzmem
    rw [← hcase] at hzmem
    exact hbound i0 z hzmem
  · rw [h1] at hcase
    simp only [Option.some.injEq] at hcase
    intro z hzmem
    rw [← hcase] at hzmem
    exact hbound i1 z hzmem
  · rw [h2] at hcase
    simp only [Option.some.injEq] at hcase
    intro z hzmem
    rw [← hcase] at hzmem
    exact hbound i2 z hzmem
  · rw [h3] at hcase
    simp only [Option.some.injEq] at hcase
    intro z hzmem
    rw [← hcase] at hzmem
    exact hbound i3 z hzmem

/-- Witness for C10: in the decoded record of `respZ` the open-zones set
is `{1, 2}`, and zone 1 is within `1..32`. -/
theorem zone_numbers_bounded_witness : 1 ≤ 1 ∧ 1 ≤ 32 :=
  zone_numbers_bounded 32 respZ recZ {1, 2} (Or.inl rfl) (by decide)
    (by decide) (Or.inl (by decide)) 1 (by decide)

end Pima
